import Mathlib

/-!
Verification development for the arbitrage-sniper quant engine.

This file gives a shallow embedding of the core pipeline of the repository:
the in-memory order book (`order_book.py`), the spread engine
(`spread_engine.py`), and the signal publisher (`redis_publisher.py`).
Prices and percentages are modelled as exact rationals (`ℚ`); Python dicts
are modelled as insertion-ordered association lists, matching Python's
dictionary ordering semantics; the system clock reading used by
`is_stale` is passed explicitly as a `now_ms` parameter; the fallible
broker calls of the publisher are modelled by an explicit outcome record.
-/

namespace ArbSniper

/-- `PriceLevel` from `order_book.py`: best bid/ask plus producer timestamp
in milliseconds. -/
structure PriceLevel where
  bid : ℚ
  ask : ℚ
  timestamp : ℤ
deriving Repr, DecidableEq

/-- The inner dict `{symbol: PriceLevel}` of the nested book structure. -/
abbrev Inner := List (String × PriceLevel)

/-- The outer dict `{exchange: {symbol: PriceLevel}}`. -/
abbrev Book := List (String × Inner)

/-- Python dict assignment `m[k] = v`: an existing key keeps its position
and gets the new value; a new key is appended at the end. -/
def dictInsert {α : Type} (k : String) (v : α) (m : List (String × α)) :
    List (String × α) :=
  if (m.lookup k).isSome then
    m.map (fun p => if p.1 = k then (k, v) else p)
  else
    m ++ [(k, v)]

/-- `OrderBook` state: the nested book, the staleness threshold
`max_age_ms`, and the successful-update counter `update_count`. -/
structure OrderBook where
  book : Book
  max_age_ms : ℤ
  update_count : ℕ
deriving Repr, DecidableEq

/-- `OrderBook.__init__`: empty book. -/
def OrderBook.empty (max_age_ms : ℤ) : OrderBook :=
  ⟨[], max_age_ms, 0⟩

/-- The synthetic-spread constant `0.0001` used by `OrderBook.update`. -/
def epsilon : ℚ := 1 / 10000

/-- The synthetic level `PriceLevel(bid=price-price*0.0001,
ask=price+price*0.0001, timestamp)` built by `OrderBook.update`. -/
def synthLevel (price : ℚ) (timestamp : ℤ) : PriceLevel :=
  { bid := price - price * epsilon
    ask := price + price * epsilon
    timestamp := timestamp }

/-- `OrderBook.update`: ensures the exchange's inner dict exists, rejects
the update when the stored timestamp is strictly newer, otherwise stores
the synthetic level and increments `update_count`.  Returns the
`True`/`False` result paired with the post-state. -/
def OrderBook.update (ob : OrderBook) (exchange symbol : String) (price : ℚ)
    (timestamp : ℤ) : Bool × OrderBook :=
  let book1 : Book :=
    if (ob.book.lookup exchange).isSome then ob.book
    else ob.book ++ [(exchange, [])]
  let inner : Inner := (book1.lookup exchange).getD []
  let stale : Bool :=
    match inner.lookup symbol with
    | some current => timestamp < current.timestamp
    | none => false
  if stale then
    (false, { ob with book := book1 })
  else
    (true,
      { ob with
        book := dictInsert exchange (dictInsert symbol (synthLevel price timestamp) inner) book1
        update_count := ob.update_count + 1 })

/-- `OrderBook.get`: `self._book.get(exchange, {}).get(symbol)`. -/
def OrderBook.get (ob : OrderBook) (exchange symbol : String) :
    Option PriceLevel :=
  ((ob.book.lookup exchange).getD []).lookup symbol

/-- `OrderBook.is_stale`: age strictly above `max_age_ms` is stale.  The
wall-clock reading `time.time() * 1000` is the explicit `now_ms`. -/
def OrderBook.is_stale (ob : OrderBook) (now_ms timestamp : ℤ) : Bool :=
  ob.max_age_ms < now_ms - timestamp

/-- `OrderBook.get_all_exchanges`: every exchange holding a non-stale entry
for `symbol`, in book iteration order. -/
def OrderBook.get_all_exchanges (ob : OrderBook) (now_ms : ℤ)
    (symbol : String) : Inner :=
  ob.book.filterMap (fun es =>
    match es.2.lookup symbol with
    | some lvl =>
        if ob.is_stale now_ms lvl.timestamp then none else some (es.1, lvl)
    | none => none)

/-- The dict returned by `OrderBook.get_stats`. -/
structure BookStats where
  exchanges : List String
  symbols_count : ℕ
  updates : ℕ
deriving Repr, DecidableEq

/-- `OrderBook.get_stats`: exchange-name list, `len(self._book)`, and the
update counter. -/
def OrderBook.get_stats (ob : OrderBook) : BookStats :=
  { exchanges := ob.book.map Prod.fst
    symbols_count := ob.book.length
    updates := ob.update_count }

/-- Round-half-to-even on `ℚ`, the rounding rule of Python's `round`. -/
def roundHalfEven (x : ℚ) : ℤ :=
  if x - ⌊x⌋ < 1 / 2 then ⌊x⌋
  else if 1 / 2 < x - ⌊x⌋ then ⌊x⌋ + 1
  else if 2 ∣ ⌊x⌋ then ⌊x⌋ else ⌊x⌋ + 1

/-- Python's `round(x, ndigits)` in exact rational arithmetic. -/
def pyRound (ndigits : ℕ) (x : ℚ) : ℚ :=
  (roundHalfEven (x * 10 ^ ndigits) : ℚ) / 10 ^ ndigits

/-- The opportunity dict built by `SpreadEngine.find_arbitrage`. -/
structure Opportunity where
  buy_exchange : String
  sell_exchange : String
  buy_price : ℚ
  sell_price : ℚ
  spread_pct : ℚ
  profit : ℚ
  symbol : String
deriving Repr, DecidableEq

/-- One body iteration of the double loop in `find_arbitrage`: skip equal
exchanges, compute the raw spread, and strictly improve the
`(max_spread, best_opportunity)` accumulator. -/
def spreadStep (symbol : String) (buy sell : String × PriceLevel)
    (acc : ℚ × Option Opportunity) : ℚ × Option Opportunity :=
  if buy.1 = sell.1 then acc
  else
    let buy_price := buy.2.ask
    let sell_price := sell.2.bid
    let profit := sell_price - buy_price
    let spread_pct := profit / buy_price * 100
    if acc.1 < spread_pct then
      (spread_pct,
        some
          { buy_exchange := buy.1
            sell_exchange := sell.1
            buy_price := pyRound 2 buy_price
            sell_price := pyRound 2 sell_price
            spread_pct := pyRound 4 spread_pct
            profit := pyRound 2 profit
            symbol := symbol })
    else acc

/-- `SpreadEngine.find_arbitrage`: snapshot, N×N scan accumulating the best
raw spread, then the threshold gate on the best opportunity's (rounded)
`spread_pct`. -/
def find_arbitrage (ob : OrderBook) (threshold_pct : ℚ) (now_ms : ℤ)
    (symbol : String) : Option Opportunity :=
  let exchanges := ob.get_all_exchanges now_ms symbol
  if exchanges.length < 2 then none
  else
    let best := exchanges.foldl
      (fun acc buy => exchanges.foldl (fun a sell => spreadStep symbol buy sell a) acc)
      ((0 : ℚ), (none : Option Opportunity))
    match best.2 with
    | some opp => if threshold_pct < opp.spread_pct then some opp else none
    | none => none

/-- Outcome of the four fallible steps inside `publish_signal`'s `try`
block: `orjson.dumps`, `redis.publish`, `redis.zadd`,
`redis.zremrangebyrank`. -/
structure BrokerOutcome where
  serialize_ok : Bool
  publish_ok : Bool
  zadd_ok : Bool
  trim_ok : Bool
deriving Repr, DecidableEq

/-- The `try` block of `publish_signal` run against a given broker
outcome: the first failing step raises, aborting the rest of the block. -/
def publishAttempt (o : BrokerOutcome) : Except String Unit :=
  if !o.serialize_ok then .error "serialize"
  else if !o.publish_ok then .error "publish"
  else if !o.zadd_ok then .error "zadd"
  else if !o.trim_ok then .error "zremrangebyrank"
  else .ok ()

/-- `SignalPublisher` state relevant to the claims: the counter. -/
structure SignalPublisher where
  signal_count : ℕ
deriving Repr, DecidableEq

/-- `SignalPublisher.publish_signal`: the `try` body runs; only if no step
raised does `signal_count += 1` execute, because the increment sits inside
the `try` after all four broker steps; the `except` handler only logs. -/
def SignalPublisher.publish_signal (pub : SignalPublisher)
    (o : BrokerOutcome) : SignalPublisher :=
  match publishAttempt o with
  | .ok _ => { signal_count := pub.signal_count + 1 }
  | .error _ => pub

/-! ### Association-list (Python dict) lemmas -/

theorem lookup_map_replace_self {α : Type} (k : String) (v : α) :
    ∀ m : List (String × α), (m.lookup k).isSome →
      ((m.map fun p => if p.1 = k then (k, v) else p).lookup k) = some v := by
  intro m
  induction m with
  | nil => intro h; simp at h
  | cons hd tl ih =>
      obtain ⟨a, b⟩ := hd
      intro h
      by_cases hk : a = k
      · subst hk
        simp [List.lookup_cons]
      · have hne : (k == a) = false := by
          simp only [beq_eq_false_iff_ne, ne_eq]
          exact fun hc => hk hc.symm
        simp only [List.map_cons, List.lookup_cons, hne] at h
        simp only [List.map_cons, if_neg hk, List.lookup_cons, hne]
        exact ih h

theorem lookup_map_replace_ne {α : Type} (k k' : String) (v : α)
    (hne : k' ≠ k) :
    ∀ m : List (String × α),
      ((m.map fun p => if p.1 = k then (k, v) else p).lookup k') = m.lookup k' := by
  intro m
  induction m with
  | nil => simp
  | cons hd tl ih =>
      obtain ⟨a, b⟩ := hd
      by_cases hk : a = k
      · subst hk
        have h1 : (k' == a) = false := by simp [beq_eq_false_iff_ne, hne]
        simp only [List.map_cons, if_true, ite_true, List.lookup_cons, h1, ih]
      · simp only [List.map_cons, if_neg hk, List.lookup_cons, ih]

theorem dictInsert_lookup_self {α : Type} (k : String) (v : α)
    (m : List (String × α)) : (dictInsert k v m).lookup k = some v := by
  rw [dictInsert]
  by_cases h : (m.lookup k).isSome
  · rw [if_pos h]
    exact lookup_map_replace_self k v m h
  · rw [if_neg h, List.lookup_append]
    have : m.lookup k = none := by
      cases hm : m.lookup k with
      | none => rfl
      | some w => rw [hm] at h; simp at h
    simp [this]

theorem dictInsert_lookup_ne {α : Type} (k k' : String) (v : α)
    (m : List (String × α)) (hne : k' ≠ k) :
    (dictInsert k v m).lookup k' = m.lookup k' := by
  rw [dictInsert]
  by_cases h : (m.lookup k).isSome
  · rw [if_pos h]
    exact lookup_map_replace_ne k k' v hne m
  · rw [if_neg h, List.lookup_append]
    have h1 : (k' == k) = false := by simp [beq_eq_false_iff_ne, hne]
    cases hm : m.lookup k' with
    | none => simp [List.lookup_cons, h1]
    | some w => simp [Option.or]

/-! ### `OrderBook.update` characterization -/

theorem update_book1_lookup (ob : OrderBook) (e : String) :
    ((if (ob.book.lookup e).isSome then ob.book else ob.book ++ [(e, [])]).lookup e)
      = some ((ob.book.lookup e).getD []) := by
  cases h : ob.book.lookup e with
  | some i => simp [h]
  | none => simp [h, List.lookup_append]

theorem update_book1_lookup_ne (ob : OrderBook) (e e' : String) (hne : e' ≠ e) :
    ((if (ob.book.lookup e).isSome then ob.book else ob.book ++ [(e, [])]).lookup e')
      = ob.book.lookup e' := by
  have h1 : (e' == e) = false := by simp [beq_eq_false_iff_ne, hne]
  cases h : ob.book.lookup e with
  | some i => simp [h]
  | none =>
      simp only [h, Option.isSome_none, Bool.false_eq_true, if_false,
        List.lookup_append]
      cases hm : ob.book.lookup e' with
      | none => simp [List.lookup_cons, h1]
      | some w => simp [Option.or]

/-- `OrderBook.update` rephrased through `OrderBook.get` on the pre-state. -/
theorem update_eq (ob : OrderBook) (e s : String) (p : ℚ) (t : ℤ) :
    ob.update e s p t =
      (if (match ob.get e s with
           | some cur => decide (t < cur.timestamp)
           | none => false) = true then
        (false,
          { ob with
            book := if (ob.book.lookup e).isSome then ob.book else ob.book ++ [(e, [])] })
      else
        (true,
          { ob with
            book :=
              dictInsert e
                (dictInsert s (synthLevel p t) ((ob.book.lookup e).getD []))
                (if (ob.book.lookup e).isSome then ob.book else ob.book ++ [(e, [])])
            update_count := ob.update_count + 1 })) := by
  have hb := update_book1_lookup ob e
  simp only [OrderBook.update, hb, Option.getD_some, OrderBook.get]

/-- `update` returns `False` exactly when a strictly newer entry exists. -/
theorem update_false_iff (ob : OrderBook) (e s : String) (p : ℚ) (t : ℤ) :
    (ob.update e s p t).1 = false ↔
      ∃ lvl, ob.get e s = some lvl ∧ t < lvl.timestamp := by
  rw [update_eq]
  cases h : ob.get e s with
  | none => simp [h]
  | some cur =>
      by_cases ht : t < cur.timestamp
      · simp [h, ht]
      · simp [h, ht]

/-- A rejected update leaves the whole `OrderBook` state unchanged. -/
theorem update_false_state (ob : OrderBook) (e s : String) (p : ℚ) (t : ℤ)
    (h : (ob.update e s p t).1 = false) : (ob.update e s p t).2 = ob := by
  have hx := (update_false_iff ob e s p t).mp h
  obtain ⟨lvl, hget, hlt⟩ := hx
  have hsome : (ob.book.lookup e).isSome := by
    cases hb : ob.book.lookup e with
    | none => rw [OrderBook.get, hb] at hget; simp at hget
    | some i => simp
  rw [update_eq]
  have hc : (match ob.get e s with
      | some cur => decide (t < cur.timestamp)
      | none => false) = true := by
    rw [hget]
    exact decide_eq_true hlt
  rw [if_pos hc]
  simp only [hsome, if_true]

/-- A successful update stores the synthetic level under its key. -/
theorem update_true_get (ob : OrderBook) (e s : String) (p : ℚ) (t : ℤ)
    (h : (ob.update e s p t).1 = true) :
    (ob.update e s p t).2.get e s = some (synthLevel p t) := by
  rw [update_eq] at h ⊢
  cases hg : ob.get e s with
  | none =>
      simp only [hg] at h ⊢
      simp [OrderBook.get, dictInsert_lookup_self]
  | some cur =>
      by_cases ht : t < cur.timestamp
      · simp [hg, ht] at h
      · simp only [hg, ht] at h ⊢
        simp [OrderBook.get, dictInsert_lookup_self]

/-- Any update leaves every other `(exchange, symbol)` key untouched. -/
theorem update_get_other (ob : OrderBook) (e s e' s' : String) (p : ℚ) (t : ℤ)
    (hne : (e', s') ≠ (e, s)) :
    (ob.update e s p t).2.get e' s' = ob.get e' s' := by
  rw [update_eq]
  by_cases he : e' = e
  · subst he
    have hs : s' ≠ s := by
      intro hss
      exact hne (by rw [hss])
    cases hg : ob.get e' s with
    | none =>
        simp only [hg]
        simp [OrderBook.get, dictInsert_lookup_self,
          dictInsert_lookup_ne s s' _ _ hs, update_book1_lookup]
    | some cur =>
        by_cases ht : t < cur.timestamp
        · simp only [hg, ht, decide_eq_true_eq, if_true]
          simp [OrderBook.get, update_book1_lookup]
        · simp only [hg, ht, decide_eq_true_eq, if_false]
          simp [OrderBook.get, dictInsert_lookup_self,
            dictInsert_lookup_ne s s' _ _ hs, update_book1_lookup]
  · cases hg : ob.get e s with
    | none =>
        simp only [hg]
        simp [OrderBook.get, dictInsert_lookup_ne e e' _ _ he,
          update_book1_lookup_ne ob e e' he]
    | some cur =>
        by_cases ht : t < cur.timestamp
        · simp only [hg, ht, decide_eq_true_eq, if_true]
          simp [OrderBook.get, update_book1_lookup_ne ob e e' he]
        · simp only [hg, ht, decide_eq_true_eq, if_false]
          simp [OrderBook.get, dictInsert_lookup_ne e e' _ _ he,
            update_book1_lookup_ne ob e e' he]

/-! ### Spread-engine fold machinery -/

/-- The raw (unrounded) directed spread percentage of a buy/sell pair:
`(sell_bid - buy_ask) / buy_ask * 100`. -/
def rawSpread (buy sell : PriceLevel) : ℚ :=
  (sell.bid - buy.ask) / buy.ask * 100

/-- The opportunity record `find_arbitrage` builds for one directed pair. -/
def mkOpp (symbol : String)
    (p : (String × PriceLevel) × (String × PriceLevel)) : Opportunity :=
  { buy_exchange := p.1.1
    sell_exchange := p.2.1
    buy_price := pyRound 2 p.1.2.ask
    sell_price := pyRound 2 p.2.2.bid
    spread_pct := pyRound 4 (rawSpread p.1.2 p.2.2)
    profit := pyRound 2 (p.2.2.bid - p.1.2.ask)
    symbol := symbol }

/-- The loop body of `find_arbitrage` after the equal-exchange skip. -/
def bestStep (symbol : String) (acc : ℚ × Option Opportunity)
    (p : (String × PriceLevel) × (String × PriceLevel)) :
    ℚ × Option Opportunity :=
  if acc.1 < rawSpread p.1.2 p.2.2 then
    (rawSpread p.1.2 p.2.2, some (mkOpp symbol p))
  else acc

/-- All directed pairs of snapshot entries with distinct exchange names:
exactly the pairs the double loop of `find_arbitrage` does not skip. -/
def okPairs (snap : Inner) :
    List ((String × PriceLevel) × (String × PriceLevel)) :=
  (snap.flatMap fun b => snap.map fun s => (b, s)).filter
    fun p => !(p.1.1 == p.2.1)

/-- The raw spread percentages over all directed distinct-exchange pairs. -/
def rawSpreads (snap : Inner) : List ℚ :=
  (okPairs snap).map fun p => rawSpread p.1.2 p.2.2

theorem spreadStep_eq (symbol : String) (b s : String × PriceLevel)
    (acc : ℚ × Option Opportunity) :
    spreadStep symbol b s acc =
      if b.1 = s.1 then acc else bestStep symbol acc (b, s) := by
  rw [spreadStep, bestStep, mkOpp, rawSpread]

theorem foldl_nested_eq_bind {α β : Type} (g : β → β → α → α) :
    ∀ (l : List β) (m : List β) (init : α),
      l.foldl (fun acc b => m.foldl (fun a s => g b s a) acc) init
        = (l.flatMap fun b => m.map fun s => (b, s)).foldl
            (fun a p => g p.1 p.2 a) init := by
  intro l
  induction l with
  | nil => intro m init; rfl
  | cons b tl ih =>
      intro m init
      rw [List.foldl_cons, List.flatMap_cons, List.foldl_append, List.foldl_map, ih]

theorem foldl_spreadStep_filter (symbol : String) :
    ∀ (L : List ((String × PriceLevel) × (String × PriceLevel)))
      (init : ℚ × Option Opportunity),
      L.foldl (fun a p => spreadStep symbol p.1 p.2 a) init
        = (L.filter fun p => !(p.1.1 == p.2.1)).foldl (bestStep symbol) init := by
  intro L
  induction L with
  | nil => intro init; rfl
  | cons p tl ih =>
      intro init
      rw [List.foldl_cons, List.filter_cons, spreadStep_eq]
      by_cases h : p.1.1 = p.2.1
      · have hb : (p.1.1 == p.2.1) = true := by simp [h]
        simp only [hb, Bool.not_true, if_pos h, if_false, Bool.false_eq_true]
        exact ih init
      · have hb : (p.1.1 == p.2.1) = false := by simp [h]
        simp only [hb, Bool.not_false, if_neg h, if_true]
        rw [List.foldl_cons, ih]

theorem foldl_bestStep_fst (symbol : String) :
    ∀ (M : List ((String × PriceLevel) × (String × PriceLevel)))
      (q : ℚ) (o : Option Opportunity),
      (M.foldl (bestStep symbol) (q, o)).1
        = (M.map fun p => rawSpread p.1.2 p.2.2).foldl max q := by
  intro M
  induction M with
  | nil => intro q o; rfl
  | cons p tl ih =>
      intro q o
      rw [List.foldl_cons, List.map_cons, List.foldl_cons]
      by_cases h : q < rawSpread p.1.2 p.2.2
      · rw [bestStep, if_pos h, ih, max_eq_right (le_of_lt h)]
      · rw [bestStep, if_neg h, ih, max_eq_left (le_of_not_lt h)]

theorem foldl_bestStep_some (symbol : String) :
    ∀ (M : List ((String × PriceLevel) × (String × PriceLevel)))
      (q : ℚ) (x : Opportunity),
      ∃ y, (M.foldl (bestStep symbol) (q, some x)).2 = some y := by
  intro M
  induction M with
  | nil => intro q x; exact ⟨x, rfl⟩
  | cons p tl ih =>
      intro q x
      rw [List.foldl_cons, bestStep]
      by_cases h : q < rawSpread p.1.2 p.2.2
      · rw [if_pos h]; exact ih _ _
      · rw [if_neg h]; exact ih _ _

theorem foldl_bestStep_none_iff (symbol : String) :
    ∀ (M : List ((String × PriceLevel) × (String × PriceLevel))) (q : ℚ),
      (M.foldl (bestStep symbol) (q, none)).2 = none ↔
        ∀ p ∈ M, rawSpread p.1.2 p.2.2 ≤ q := by
  intro M
  induction M with
  | nil => intro q; simp
  | cons p tl ih =>
      intro q
      rw [List.foldl_cons, bestStep]
      by_cases h : q < rawSpread p.1.2 p.2.2
      · rw [if_pos h]
        obtain ⟨y, hy⟩ :=
          foldl_bestStep_some symbol tl (rawSpread p.1.2 p.2.2) (mkOpp symbol p)
        simp only [hy]
        constructor
        · intro hc; exact absurd hc (by simp)
        · intro hall
          have := hall p (by simp)
          exact absurd this (not_le.mpr h)
      · rw [if_neg h]
        rw [ih q]
        constructor
        · intro hall p' hp'
          rcases List.mem_cons.mp hp' with h1 | h2
          · rw [h1]; exact le_of_not_lt h
          · exact hall p' h2
        · intro hall p' hp'
          exact hall p' (List.mem_cons_of_mem _ hp')

theorem foldl_bestStep_spread_inv (symbol : String) :
    ∀ (M : List ((String × PriceLevel) × (String × PriceLevel)))
      (acc : ℚ × Option Opportunity),
      (∀ x, acc.2 = some x → x.spread_pct = pyRound 4 acc.1) →
      ∀ x, (M.foldl (bestStep symbol) acc).2 = some x →
        x.spread_pct = pyRound 4 (M.foldl (bestStep symbol) acc).1 := by
  intro M
  induction M with
  | nil => intro acc hacc x hx; exact hacc x hx
  | cons p tl ih =>
      intro acc hacc x hx
      rw [List.foldl_cons] at hx ⊢
      refine ih (bestStep symbol acc p) ?_ x hx
      intro y hy
      rw [bestStep] at hy ⊢
      by_cases h : acc.1 < rawSpread p.1.2 p.2.2
      · rw [if_pos h] at hy ⊢
        simp only at hy
        cases hy
        rfl
      · rw [if_neg h] at hy ⊢
        exact hacc y hy

/-! ### Snapshot lookup characterization -/

theorem snapshot_lookup_aux (ob : OrderBook) (now_ms : ℤ) (s e : String) :
    ∀ b : Book, (b.map Prod.fst).Nodup → ∀ lvl : PriceLevel,
      ((b.filterMap (fun es =>
          match es.2.lookup s with
          | some lv =>
              if ob.is_stale now_ms lv.timestamp then none else some (es.1, lv)
          | none => none)).lookup e = some lvl
        ↔ (((b.lookup e).getD []).lookup s = some lvl
            ∧ now_ms - lvl.timestamp ≤ ob.max_age_ms)) := by
  intro b
  induction b with
  | nil => intro _ lvl; simp
  | cons hd tl ih =>
      intro hnd lvl
      obtain ⟨a, inner⟩ := hd
      rw [List.map_cons, List.nodup_cons] at hnd
      obtain ⟨hmem, hnd'⟩ := hnd
      have htl := ih hnd'
      have hmem' : a ∉ tl.map Prod.fst := hmem
      by_cases he : e = a
      · subst he
        have htlnone : tl.lookup e = none := by
          rw [List.lookup_eq_none_iff]
          intro p hp
          simp only [bne_iff_ne, ne_eq]
          intro hc
          refine hmem' ?_
          rw [hc]
          exact List.mem_map.mpr ⟨p, hp, rfl⟩
        have htlfalse : ∀ lv : PriceLevel,
            ¬ (tl.filterMap (fun es =>
              match es.2.lookup s with
              | some lv =>
                  if ob.is_stale now_ms lv.timestamp then none else some (es.1, lv)
              | none => none)).lookup e = some lv := by
          intro lv hc
          rw [htl lv, htlnone] at hc
          simp at hc
        cases hin : inner.lookup s with
        | none =>
            rw [List.filterMap_cons]
            simp only [hin]
            constructor
            · intro hc; exact absurd hc (htlfalse lvl)
            · intro hc
              rw [List.lookup_cons_self] at hc
              simp only [Option.getD_some, hin] at hc
              exact absurd hc.1 (by simp)
        | some lv =>
            cases hst : ob.is_stale now_ms lv.timestamp with
            | true =>
                rw [List.filterMap_cons]
                simp only [hin, hst, if_true]
                constructor
                · intro hc; exact absurd hc (htlfalse lvl)
                · intro hc
                  rw [List.lookup_cons_self] at hc
                  simp only [Option.getD_some, hin, Option.some.injEq] at hc
                  obtain ⟨rfl, hfresh⟩ := hc
                  rw [OrderBook.is_stale] at hst
                  simp only [decide_eq_true_eq] at hst
                  exact absurd hfresh (not_le.mpr hst)
            | false =>
                rw [List.filterMap_cons]
                simp only [hin, hst, Bool.false_eq_true, if_false]
                rw [List.lookup_cons_self, List.lookup_cons_self]
                simp only [Option.getD_some, hin, Option.some.injEq]
                constructor
                · intro hc
                  refine ⟨hc, ?_⟩
                  rw [OrderBook.is_stale] at hst
                  simp only [decide_eq_false_iff_not, not_lt] at hst
                  rw [← hc]
                  exact hst
                · intro hc; exact hc.1
      · have hbeq : (e == a) = false := by simp [beq_eq_false_iff_ne, he]
        rw [List.filterMap_cons]
        cases hin : inner.lookup s with
        | none =>
            simp only [hin]
            rw [htl lvl, List.lookup_cons, hbeq]
        | some lv =>
            cases hst : ob.is_stale now_ms lv.timestamp with
            | true =>
                simp only [hin, hst, if_true]
                rw [htl lvl, List.lookup_cons, hbeq]
            | false =>
                simp only [hin, hst, Bool.false_eq_true, if_false]
                rw [List.lookup_cons, hbeq, htl lvl, List.lookup_cons, hbeq]

/-! ### Sequences of updates to a single key -/

/-- Apply a list of `(price, timestamp)` updates to the key `(e, s)`. -/
def applyUpdates (e s : String) (l : List (ℚ × ℤ)) (ob : OrderBook) :
    OrderBook :=
  l.foldl (fun b pt => (b.update e s pt.1 pt.2).2) ob

/-- The timestamps of the updates in the sequence that returned `True`. -/
def succTs (e s : String) : OrderBook → List (ℚ × ℤ) → List ℤ
  | _, [] => []
  | ob, pt :: rest =>
      (if (ob.update e s pt.1 pt.2).1 then [pt.2] else [])
        ++ succTs e s (ob.update e s pt.1 pt.2).2 rest

theorem applyUpdates_get_max (e s : String) :
    ∀ (l : List (ℚ × ℤ)) (ob : OrderBook) (lvl : PriceLevel),
      ob.get e s = some lvl →
      ∃ lvl', (applyUpdates e s l ob).get e s = some lvl'
        ∧ lvl'.timestamp ∈ lvl.timestamp :: succTs e s ob l
        ∧ ∀ u ∈ lvl.timestamp :: succTs e s ob l, u ≤ lvl'.timestamp := by
  intro l
  induction l with
  | nil =>
      intro ob lvl hget
      refine ⟨lvl, hget, by simp [succTs], ?_⟩
      intro u hu
      simp [succTs] at hu
      rw [hu]
  | cons pt rest ih =>
      intro ob lvl hget
      cases hr : (ob.update e s pt.1 pt.2).1 with
      | true =>
          have hts : lvl.timestamp ≤ pt.2 := by
            by_contra hc
            push_neg at hc
            have hfalse := (update_false_iff ob e s pt.1 pt.2).mpr ⟨lvl, hget, hc⟩
            rw [hr] at hfalse
            exact absurd hfalse (by simp)
          have hget' := update_true_get ob e s pt.1 pt.2 hr
          obtain ⟨lvl', h1, h2, h3⟩ := ih (ob.update e s pt.1 pt.2).2 _ hget'
          refine ⟨lvl', ?_, ?_, ?_⟩
          · rw [applyUpdates, List.foldl_cons]
            exact h1
          · rw [succTs, hr]
            simp only [if_true, List.singleton_append]
            exact List.mem_cons_of_mem _ h2
          · intro u hu
            rw [succTs, hr] at hu
            simp only [if_true, List.singleton_append] at hu
            rcases List.mem_cons.mp hu with h4 | h4
            · have hle : pt.2 ≤ lvl'.timestamp := h3 pt.2 (by simp [synthLevel])
              rw [h4]
              exact le_trans hts hle
            · exact h3 u h4
      | false =>
          have hstate := update_false_state ob e s pt.1 pt.2 hr
          obtain ⟨lvl', h1, h2, h3⟩ := ih ob lvl hget
          refine ⟨lvl', ?_, ?_, ?_⟩
          · rw [applyUpdates, List.foldl_cons, hstate]
            exact h1
          · rw [succTs, hr]
            simp only [Bool.false_eq_true, if_false, List.nil_append, hstate]
            exact h2
          · intro u hu
            rw [succTs, hr] at hu
            simp only [Bool.false_eq_true, if_false, List.nil_append, hstate] at hu
            exact h3 u hu

/-! ### Concrete example books and evaluations -/

/-- The level stored for price 100 at timestamp 1000. -/
def lvlA100 : PriceLevel := ⟨9999/100, 10001/100, 1000⟩

/-- The level stored for price 101 at timestamp 1001. -/
def lvlB101 : PriceLevel := ⟨1009899/10000, 1010101/10000, 1001⟩

/-- Scenario S3 book: exchange A at 100.0 (ts 1000), B at 101.0 (ts 1001). -/
def obS3 : OrderBook :=
  (((OrderBook.empty 5000).update "A" "X" 100 1000).2.update "B" "X" 101 1001).2

theorem obS3_snap :
    obS3.get_all_exchanges 1001 "X" = [("A", lvlA100), ("B", lvlB101)] := by
  simp [obS3, OrderBook.update, OrderBook.empty, dictInsert, synthLevel, epsilon,
        OrderBook.get_all_exchanges, OrderBook.is_stale, List.lookup,
        List.filterMap, lvlA100, lvlB101]
  norm_num

/-- The opportunity `find_arbitrage` actually returns in scenario S3:
`spread_pct` is 0.9798 (= 4899/5000), not the 0.9789 printed in the spec. -/
def oppS3 : Opportunity :=
  ⟨"A", "B", 10001/100, 10099/100, 4899/5000, 49/50, "X"⟩

theorem obS3_find : find_arbitrage obS3 (1/2) 1001 "X" = some oppS3 := by
  have hBA : ("B" : String) ≠ "A" := by decide
  have hAB : ("A" : String) ≠ "B" := by decide
  rw [find_arbitrage, obS3_snap]
  norm_num [List.foldl, spreadStep, pyRound, roundHalfEven, lvlA100, lvlB101,
    oppS3, hAB, hBA]

/-- Single-exchange book: A at 100.0 (ts 1000). -/
def ob1 : OrderBook := ((OrderBook.empty 5000).update "A" "X" 100 1000).2

theorem ob1_book : ob1.book = [("A", [("X", lvlA100)])] := by
  simp [ob1, OrderBook.update, OrderBook.empty, dictInsert, synthLevel, epsilon,
        List.lookup, lvlA100]
  norm_num

theorem ob1_get : ob1.get "A" "X" = some lvlA100 := by
  rw [OrderBook.get, ob1_book]
  simp [List.lookup]

theorem ob1_snap : ob1.get_all_exchanges 1000 "X" = [("A", lvlA100)] := by
  rw [OrderBook.get_all_exchanges, ob1_book]
  have : ob1.max_age_ms = 5000 := by
    simp [ob1, OrderBook.update, OrderBook.empty]
  simp [OrderBook.is_stale, this, List.lookup, lvlA100]

/-- Buy price chosen so the stored ask is exactly 100. -/
def pBuyC1 : ℚ := 1000000/10001

/-- Sell price chosen so the stored bid is exactly 100.50004: the raw
spread is 0.50004 %, which rounds to 0.5000 % at 4 decimals. -/
def pSellC1 : ℚ := 10050004/99990

def lvlAC1 : PriceLevel := ⟨999900/10001, 100, 1000⟩

def lvlBC1 : PriceLevel := ⟨2512501/25000, 100510090004/999900000, 1001⟩

/-- Rounding counterexample book for threshold gating. -/
def obC1 : OrderBook :=
  (((OrderBook.empty 5000).update "A" "X" pBuyC1 1000).2.update
    "B" "X" pSellC1 1001).2

theorem obC1_snap :
    obC1.get_all_exchanges 1001 "X" = [("A", lvlAC1), ("B", lvlBC1)] := by
  simp [obC1, OrderBook.update, OrderBook.empty, dictInsert, synthLevel, epsilon,
        OrderBook.get_all_exchanges, OrderBook.is_stale, List.lookup,
        List.filterMap, lvlAC1, lvlBC1, pBuyC1, pSellC1]
  norm_num

theorem obC1_find : find_arbitrage obC1 (1/2) 1001 "X" = none := by
  have hBA : ("B" : String) ≠ "A" := by decide
  have hAB : ("A" : String) ≠ "B" := by decide
  rw [find_arbitrage, obC1_snap]
  norm_num [List.foldl, spreadStep, pyRound, roundHalfEven, lvlAC1, lvlBC1,
    hAB, hBA]

theorem obC1_raws :
    rawSpreads (obC1.get_all_exchanges 1001 "X")
      = [rawSpread lvlAC1 lvlBC1, rawSpread lvlBC1 lvlAC1] := by
  rw [obC1_snap]
  have hBA : ("B" : String) ≠ "A" := by decide
  have hAB : ("A" : String) ≠ "B" := by decide
  simp [rawSpreads, okPairs, hAB, hBA]

/-- Zero-price book: degenerate level with `bid = ask = 0`. -/
def lvl0 : PriceLevel := ⟨0, 0, 5⟩

def obC4 : OrderBook := ((OrderBook.empty 5000).update "A" "X" 0 5).2

theorem obC4_get : obC4.get "A" "X" = some lvl0 := by
  simp [obC4, OrderBook.update, OrderBook.empty, dictInsert, synthLevel,
    epsilon, OrderBook.get, List.lookup, lvl0]

/-- A successful concrete update used to discharge success hypotheses. -/
theorem upd_true_100 : ((OrderBook.empty 5000).update "A" "X" 100 7).1 = true := by
  simp [OrderBook.update, OrderBook.empty, List.lookup]

/-- The level stored for price 200 at timestamp 1000. -/
def lvlAY : PriceLevel := ⟨9999/50, 10001/50, 1000⟩

/-- One exchange carrying two symbols. -/
def obC10 : OrderBook :=
  (((OrderBook.empty 5000).update "A" "X" 100 1000).2.update "A" "Y" 200 1000).2

theorem obC10_book : obC10.book = [("A", [("X", lvlA100), ("Y", lvlAY)])] := by
  simp [obC10, OrderBook.update, OrderBook.empty, dictInsert, synthLevel,
    epsilon, List.lookup, lvlA100, lvlAY]
  norm_num

/-- All symbol keys appearing anywhere in the nested book. -/
def allSymbols (ob : OrderBook) : List String :=
  ob.book.flatMap (fun es => es.2.map Prod.fst)

/-! ### Claim theorems -/

/-- C1 (corrected): `find_arbitrage` returns none iff fewer than two fresh
exchanges exist, or no directed pair has positive raw spread, or the
4-decimal-ROUNDED maximum spread is `≤ threshold_pct`; when it returns an
opportunity, that opportunity's `spread_pct` is the rounded maximum raw
spread and it strictly exceeds the threshold.  The threshold gate uses the
rounded value, not the raw one as the original claim states. -/
theorem C1_threshold_gating (ob : OrderBook) (threshold_pct : ℚ)
    (now_ms : ℤ) (symbol : String)
    (_hpos : ∀ p ∈ ob.get_all_exchanges now_ms symbol, 0 < p.2.ask) :
    (find_arbitrage ob threshold_pct now_ms symbol = none ↔
      (ob.get_all_exchanges now_ms symbol).length < 2
      ∨ (∀ r ∈ rawSpreads (ob.get_all_exchanges now_ms symbol), r ≤ 0)
      ∨ pyRound 4 ((rawSpreads (ob.get_all_exchanges now_ms symbol)).foldl max 0)
          ≤ threshold_pct)
    ∧ ∀ opp, find_arbitrage ob threshold_pct now_ms symbol = some opp →
        opp.spread_pct
            = pyRound 4 ((rawSpreads (ob.get_all_exchanges now_ms symbol)).foldl max 0)
        ∧ threshold_pct < opp.spread_pct := by
  have hkey := foldl_nested_eq_bind
    (fun b s a => spreadStep symbol b s a)
    (ob.get_all_exchanges now_ms symbol) (ob.get_all_exchanges now_ms symbol)
    ((0 : ℚ), (none : Option Opportunity))
  rw [foldl_spreadStep_filter] at hkey
  have hkey2 : (ob.get_all_exchanges now_ms symbol).foldl
      (fun acc buy => (ob.get_all_exchanges now_ms symbol).foldl
        (fun a sell => spreadStep symbol buy sell a) acc)
      ((0 : ℚ), (none : Option Opportunity))
      = (okPairs (ob.get_all_exchanges now_ms symbol)).foldl (bestStep symbol)
          ((0 : ℚ), (none : Option Opportunity)) := hkey
  by_cases hlen : (ob.get_all_exchanges now_ms symbol).length < 2
  · have hfn : find_arbitrage ob threshold_pct now_ms symbol = none := by
      rw [find_arbitrage, if_pos hlen]
    rw [hfn]
    constructor
    · exact iff_of_true rfl (Or.inl hlen)
    · intro opp h
      exact absurd h (by simp)
  · have hfren : find_arbitrage ob threshold_pct now_ms symbol
        = (match ((okPairs (ob.get_all_exchanges now_ms symbol)).foldl
            (bestStep symbol) ((0 : ℚ), (none : Option Opportunity))).2 with
          | some opp =>
              if threshold_pct < opp.spread_pct then some opp else none
          | none => none) := by
      rw [find_arbitrage, if_neg hlen]
      rw [hkey2]
    rw [hfren]
    cases hbest : ((okPairs (ob.get_all_exchanges now_ms symbol)).foldl
        (bestStep symbol) ((0 : ℚ), (none : Option Opportunity))).2 with
    | none =>
        constructor
        · refine iff_of_true rfl (Or.inr (Or.inl ?_))
          intro r hr
          rw [rawSpreads] at hr
          obtain ⟨q, hq, rfl⟩ := List.mem_map.mp hr
          exact (foldl_bestStep_none_iff symbol _ 0).mp hbest q hq
        · intro opp h
          exact absurd h (by simp)
    | some opp =>
        show ((if threshold_pct < opp.spread_pct then some opp else none)
            = none ↔ _) ∧ _
        have hspread : opp.spread_pct
            = pyRound 4
                ((rawSpreads (ob.get_all_exchanges now_ms symbol)).foldl max 0) := by
          have hinv := foldl_bestStep_spread_inv symbol
            (okPairs (ob.get_all_exchanges now_ms symbol))
            ((0 : ℚ), (none : Option Opportunity))
            (by intro x hx; simp at hx) opp hbest
          rw [foldl_bestStep_fst] at hinv
          rw [hinv, rawSpreads]
        have hnotall :
            ¬ (∀ r ∈ rawSpreads (ob.get_all_exchanges now_ms symbol), r ≤ 0) := by
          intro hall
          have hnone : ((okPairs (ob.get_all_exchanges now_ms symbol)).foldl
              (bestStep symbol) ((0 : ℚ), (none : Option Opportunity))).2
                = none := by
            rw [foldl_bestStep_none_iff]
            intro q hq
            refine hall _ ?_
            rw [rawSpreads]
            exact List.mem_map.mpr ⟨q, hq, rfl⟩
          rw [hbest] at hnone
          exact absurd hnone (by simp)
        constructor
        · by_cases hth : threshold_pct < opp.spread_pct
          · rw [if_pos hth]
            refine iff_of_false (by simp) ?_
            rintro (h1 | h2 | h3)
            · exact hlen h1
            · exact hnotall h2
            · rw [hspread] at hth
              exact absurd h3 (not_le.mpr hth)
          · rw [if_neg hth]
            refine iff_of_true rfl (Or.inr (Or.inr ?_))
            rw [← hspread]
            exact le_of_not_lt hth
        · intro opp' h'
          have h2 : (if threshold_pct < opp.spread_pct then some opp else none)
              = some opp' := h'
          by_cases hth : threshold_pct < opp.spread_pct
          · rw [if_pos hth] at h2
            rw [Option.some_inj] at h2
            rw [← h2]
            exact ⟨hspread, hth⟩
          · rw [if_neg hth] at h2
            exact absurd h2 (by simp)

/-- C1 counterexample: a book whose maximum raw spread (0.50004 %) strictly
exceeds the threshold 0.5, yet `find_arbitrage` returns none because the
rounded spread (0.5000) fails the strict rounded-threshold test. -/
theorem C1_counterexample :
    find_arbitrage obC1 (1/2) 1001 "X" = none
    ∧ 1/2 < (rawSpreads (obC1.get_all_exchanges 1001 "X")).foldl max 0 := by
  refine ⟨obC1_find, ?_⟩
  rw [obC1_raws]
  have h1 : (1:ℚ)/2 < rawSpread lvlAC1 lvlBC1 := by
    norm_num [rawSpread, lvlAC1, lvlBC1]
  calc (1:ℚ)/2 < rawSpread lvlAC1 lvlBC1 := h1
    _ ≤ max 0 (rawSpread lvlAC1 lvlBC1) := le_max_right _ _
    _ ≤ max (max 0 (rawSpread lvlAC1 lvlBC1)) (rawSpread lvlBC1 lvlAC1) :=
        le_max_left _ _
    _ = ([rawSpread lvlAC1 lvlBC1, rawSpread lvlBC1 lvlAC1]).foldl max 0 := by
        simp [List.foldl]

/-- C1 witness: the gating theorem applied to a concrete one-exchange book. -/
theorem C1_witness : find_arbitrage ob1 (1/2) 1000 "X" = none := by
  have h := C1_threshold_gating ob1 (1/2) 1000 "X" (by
    rw [ob1_snap]
    intro q hq
    simp only [List.mem_singleton] at hq
    subst hq
    norm_num [lvlA100])
  exact h.1.mpr (Or.inl (by rw [ob1_snap]; norm_num))

/-- C2 (corrected): `signal_count` increments exactly when all four broker
steps succeed; a failing step aborts the try block before the increment. -/
theorem C2_publish_count (pub : SignalPublisher) (o : BrokerOutcome) :
    (pub.publish_signal o).signal_count =
      if o.serialize_ok ∧ o.publish_ok ∧ o.zadd_ok ∧ o.trim_ok
      then pub.signal_count + 1 else pub.signal_count := by
  rcases o with ⟨s, p, z, t⟩
  cases s <;> cases p <;> cases z <;> cases t <;>
    simp [SignalPublisher.publish_signal, publishAttempt]

/-- C2 counterexample: a failed broadcast step leaves `signal_count`
unincremented, contradicting "increments once regardless of failures". -/
theorem C2_counterexample :
    ¬ ((SignalPublisher.publish_signal ⟨0⟩ ⟨true, false, true, true⟩).signal_count
        = 0 + 1) := by
  decide

/-- C3 (corrected): scenario S3 returns the opportunity
`{A, B, 100.01, 100.99, 0.9798, 0.98, X}`; the spec's `spread_pct` value
0.9789 is wrong, the exact value 0.97980… rounds to 0.9798. -/
theorem C3_scenario_S3 : find_arbitrage obS3 (1/2) 1001 "X" = some oppS3 :=
  obS3_find

/-- The opportunity the original claim asserts, with `spread_pct = 0.9789`. -/
def oppS3_claimed : Opportunity :=
  ⟨"A", "B", 10001/100, 10099/100, 9789/10000, 49/50, "X"⟩

/-- C3 counterexample: the claimed opportunity (spread_pct 0.9789) is not
what `find_arbitrage` returns on the S3 book. -/
theorem C3_counterexample :
    find_arbitrage obS3 (1/2) 1001 "X" ≠ some oppS3_claimed := by
  rw [obS3_find]
  intro h
  rw [Option.some_inj] at h
  have hs := congrArg Opportunity.spread_pct h
  norm_num [oppS3, oppS3_claimed] at hs

/-- C4 (corrected): an accepted update stores the synthetic level, and that
level satisfies `bid < ask` exactly when the price is positive; there is
indeed no positivity precondition, so nonpositive prices store levels with
`bid ≥ ask`. -/
theorem C4_bid_lt_ask_iff_pos_price (ob : OrderBook) (e s : String) (p : ℚ)
    (t : ℤ) (h : (ob.update e s p t).1 = true) :
    (ob.update e s p t).2.get e s = some (synthLevel p t)
    ∧ ((synthLevel p t).bid < (synthLevel p t).ask ↔ 0 < p) := by
  refine ⟨update_true_get ob e s p t h, ?_⟩
  simp only [synthLevel, epsilon]
  constructor
  · intro hlt
    nlinarith
  · intro hp
    nlinarith

/-- C4 counterexample: price 0 is accepted and stores `bid = ask = 0`,
violating the unconditional `bid < ask` invariant. -/
theorem C4_counterexample :
    obC4.get "A" "X" = some lvl0 ∧ ¬ (lvl0.bid < lvl0.ask) := by
  refine ⟨obC4_get, ?_⟩
  norm_num [lvl0]

/-- C4 witness: the amended theorem applied at price 100. -/
theorem C4_witness :
    ((OrderBook.empty 5000).update "A" "X" 100 7).2.get "A" "X"
        = some (synthLevel 100 7)
    ∧ ((synthLevel 100 7).bid < (synthLevel 100 7).ask ↔ 0 < (100:ℚ)) :=
  C4_bid_lt_ask_iff_pos_price (OrderBook.empty 5000) "A" "X" 100 7 upd_true_100

/-- C5 (confirmed): `update` returns false iff a strictly newer entry for
the key exists; on true (including the equal-timestamp case and the
never-seen case) it overwrites the entry with the new synthetic level. -/
theorem C5_stale_rejection (ob : OrderBook) (e s : String) (p : ℚ) (t : ℤ) :
    ((ob.update e s p t).1 = false ↔
      ∃ lvl, ob.get e s = some lvl ∧ t < lvl.timestamp)
    ∧ ((ob.update e s p t).1 = true →
      (ob.update e s p t).2.get e s = some (synthLevel p t)) :=
  ⟨update_false_iff ob e s p t, update_true_get ob e s p t⟩

/-- C5 witness: a concrete stale update is rejected. -/
theorem C5_witness : (ob1.update "A" "X" 99 500).1 = false :=
  (C5_stale_rejection ob1 "A" "X" 99 500).1.mpr
    ⟨lvlA100, ob1_get, by norm_num [lvlA100]⟩

/-- C6 (confirmed): a rejected update leaves the entire book state,
including every stored entry and `update_count`, unchanged. -/
theorem C6_reject_frame (ob : OrderBook) (e s : String) (p : ℚ) (t : ℤ)
    (h : (ob.update e s p t).1 = false) : (ob.update e s p t).2 = ob :=
  update_false_state ob e s p t h

/-- C6 witness: the frame theorem applied to a concrete stale update. -/
theorem C6_witness : (ob1.update "A" "X" 99 500).2 = ob1 :=
  C6_reject_frame ob1 "A" "X" 99 500
    ((update_false_iff ob1 "A" "X" 99 500).mpr
      ⟨lvlA100, ob1_get, by norm_num [lvlA100]⟩)

/-- C7 (confirmed): after any nonempty update sequence to one key from an
empty book the stored timestamp is the maximum over the successful updates'
timestamps, and no update ever decreases a stored timestamp. -/
theorem C7_timestamp_monotone :
    (∀ (m : ℤ) (e s : String) (l : List (ℚ × ℤ)), l ≠ [] →
      ∃ lvl, (applyUpdates e s l (OrderBook.empty m)).get e s = some lvl
        ∧ lvl.timestamp ∈ succTs e s (OrderBook.empty m) l
        ∧ ∀ u ∈ succTs e s (OrderBook.empty m) l, u ≤ lvl.timestamp)
    ∧ (∀ (ob : OrderBook) (e s e' s' : String) (p : ℚ) (t : ℤ)
        (lvl : PriceLevel), ob.get e s = some lvl →
        ∃ lvl', (ob.update e' s' p t).2.get e s = some lvl'
          ∧ lvl.timestamp ≤ lvl'.timestamp) := by
  constructor
  · intro m e s l hne
    cases l with
    | nil => exact absurd rfl hne
    | cons pt rest =>
        have hget0 : (OrderBook.empty m).get e s = none := by
          simp [OrderBook.empty, OrderBook.get]
        have hr : ((OrderBook.empty m).update e s pt.1 pt.2).1 = true := by
          cases hb : ((OrderBook.empty m).update e s pt.1 pt.2).1 with
          | true => rfl
          | false =>
              obtain ⟨lvl, hl, _⟩ := (update_false_iff _ e s pt.1 pt.2).mp hb
              rw [hget0] at hl
              exact absurd hl (by simp)
        have hget' := update_true_get _ e s pt.1 pt.2 hr
        obtain ⟨lvl', h1, h2, h3⟩ := applyUpdates_get_max e s rest _ _ hget'
        refine ⟨lvl', ?_, ?_, ?_⟩
        · rw [applyUpdates, List.foldl_cons]
          exact h1
        · rw [succTs, hr]
          simp only [if_true, List.singleton_append]
          exact h2
        · intro u hu
          rw [succTs, hr] at hu
          simp only [if_true, List.singleton_append] at hu
          exact h3 u hu
  · intro ob e s e' s' p t lvl hget
    cases hr : (ob.update e' s' p t).1 with
    | false =>
        rw [update_false_state ob e' s' p t hr]
        exact ⟨lvl, hget, le_refl _⟩
    | true =>
        by_cases hk : e = e' ∧ s = s'
        · obtain ⟨rfl, rfl⟩ := hk
          refine ⟨synthLevel p t, update_true_get ob e s p t hr, ?_⟩
          by_contra hc
          push_neg at hc
          have hfalse := (update_false_iff ob e s p t).mpr ⟨lvl, hget, hc⟩
          rw [hr] at hfalse
          exact absurd hfalse (by simp)
        · have hne : (e, s) ≠ (e', s') := by
            intro hc
            exact hk ⟨congrArg Prod.fst hc, congrArg Prod.snd hc⟩
          rw [update_get_other ob e' s' e s p t hne]
          exact ⟨lvl, hget, le_refl _⟩

/-- C7 witness: the monotonicity theorem applied to a concrete sequence. -/
theorem C7_witness :
    ∃ lvl, (applyUpdates "A" "X" [(100, 5), (99, 3)] (OrderBook.empty 9)).get
        "A" "X" = some lvl
      ∧ lvl.timestamp ∈ succTs "A" "X" (OrderBook.empty 9) [(100, 5), (99, 3)]
      ∧ ∀ u ∈ succTs "A" "X" (OrderBook.empty 9) [(100, 5), (99, 3)],
          u ≤ lvl.timestamp :=
  C7_timestamp_monotone.1 9 "A" "X" [(100, 5), (99, 3)] (by simp)

/-- C8 (confirmed): the snapshot contains exchange `e` with level `lvl` iff
the entry exists and its age is at most `max_age_ms`; ages of exactly
`max_age_ms` are included, strictly older entries are omitted. -/
theorem C8_snapshot_staleness (ob : OrderBook) (now_ms : ℤ) (s e : String)
    (lvl : PriceLevel) (hnd : (ob.book.map Prod.fst).Nodup) :
    (ob.get_all_exchanges now_ms s).lookup e = some lvl ↔
      (ob.get e s = some lvl ∧ now_ms - lvl.timestamp ≤ ob.max_age_ms) :=
  snapshot_lookup_aux ob now_ms s e ob.book hnd lvl

/-- C8 witness: the staleness iff applied at a concrete fresh entry. -/
theorem C8_witness :
    (ob1.get_all_exchanges 1000 "X").lookup "A" = some lvlA100 ↔
      (ob1.get "A" "X" = some lvlA100
        ∧ 1000 - lvlA100.timestamp ≤ ob1.max_age_ms) :=
  C8_snapshot_staleness ob1 1000 "X" "A" lvlA100 (by rw [ob1_book]; simp)

/-- C9 (confirmed): every accepted update stores a level with
`ask - bid = 2·ε·p` and midpoint `p`, with `ε = 1e-4`, exactly in rational
arithmetic. -/
theorem C9_synthetic_spread (ob : OrderBook) (e s : String) (p : ℚ) (t : ℤ)
    (h : (ob.update e s p t).1 = true) :
    ∃ lvl, (ob.update e s p t).2.get e s = some lvl
      ∧ lvl.ask - lvl.bid = 2 * epsilon * p
      ∧ (lvl.ask + lvl.bid) / 2 = p := by
  refine ⟨synthLevel p t, update_true_get ob e s p t h, ?_, ?_⟩
  · simp only [synthLevel]
    ring
  · simp only [synthLevel]
    ring

/-- C9 witness: the spread-symmetry theorem applied at price 100. -/
theorem C9_witness :
    ∃ lvl, ((OrderBook.empty 5000).update "A" "X" 100 7).2.get "A" "X"
        = some lvl
      ∧ lvl.ask - lvl.bid = 2 * epsilon * 100
      ∧ (lvl.ask + lvl.bid) / 2 = 100 :=
  C9_synthetic_spread (OrderBook.empty 5000) "A" "X" 100 7 upd_true_100

/-- C10 (confirmed): `symbols_count` equals the outer exchange-map size and
the length of the reported exchange list, and on a one-exchange/two-symbol
book it is 1 while the number of distinct symbols is 2. -/
theorem C10_symbols_count :
    (∀ ob : OrderBook,
      (ob.get_stats).symbols_count = ob.book.length
      ∧ (ob.get_stats).symbols_count = (ob.get_stats).exchanges.length)
    ∧ (obC10.get_stats).symbols_count = 1
    ∧ (allSymbols obC10).length = 2 := by
  refine ⟨fun ob => ⟨rfl, by simp [OrderBook.get_stats]⟩, ?_, ?_⟩
  · simp [OrderBook.get_stats, obC10_book]
  · simp [allSymbols, obC10_book]

end ArbSniper
